import Mathlib

set_option maxRecDepth 100000

/-!
# Verification of the dbsamizdat specification against its source

This file gives a shallow embedding, in Lean 4, of the parts of the
`dbsamizdat` code base (a PostgreSQL schema-object manager written in
Python) that the specification's claims are about, and proves or refutes
each claim.

The embedding follows the Python source files:
* `dbsamizdat/samizdat.py`   — the samizdat class model (`definition_hash`,
  `head_id`, sidekick generation for materialized views);
* `dbsamizdat/samtypes.py`   — `FQTuple` (qualified names), `FQTuple.fqify`,
  `FQTuple.__lt__`;
* `dbsamizdat/runner.py` and `dbsamizdat/runner/executor.py` — the command
  implementations (`cmd_diff`, `cmd_refresh`), the transactional executor
  and `txi_finalize`;
* `src/dbsamizdat/libgraph.py` — the dependency-graph engine (`depsort`,
  `subtree_depends`, using the semantics of the external `toposort`
  library);
* `dbsamizdat/loader.py`     — discovery deduplication (`get_samizdats`).

Machine-level facts that the Python source relies on are embedded
executably: MD5 (used by `definition_hash`) is implemented in full below,
and CPython's per-process salted string hashing (used by `head_id` via the
builtin `hash`) is modelled with the process seed made explicit.
-/

/-! ## MD5 (RFC 1321), executable

`Samizdat.definition_hash` calls `hashlib.md5(...).hexdigest()` on a
UTF-8 encoded string.  We implement MD5 over lists of byte values
(naturals `< 256`) with 32-bit arithmetic done as `Nat` modulo `2 ^ 32`.
-/

/-- Truncate to 32 bits. -/
def m32 (n : Nat) : Nat := n % 4294967296

/-- 32-bit bitwise complement (argument assumed `< 2 ^ 32`). -/
def not32 (n : Nat) : Nat := Nat.xor n 4294967295

/-- 32-bit left-rotation by `s` (with `s < 32`). -/
def rotl32 (x s : Nat) : Nat := m32 ((x <<< s) ||| (x >>> (32 - s)))

/-- The 64 MD5 sine-derived round constants `K`. -/
def md5K : List Nat :=
  [0xd76aa478, 0xe8c7b756, 0x242070db, 0xc1bdceee,
   0xf57c0faf, 0x4787c62a, 0xa8304613, 0xfd469501,
   0x698098d8, 0x8b44f7af, 0xffff5bb1, 0x895cd7be,
   0x6b901122, 0xfd987193, 0xa679438e, 0x49b40821,
   0xf61e2562, 0xc040b340, 0x265e5a51, 0xe9b6c7aa,
   0xd62f105d, 0x02441453, 0xd8a1e681, 0xe7d3fbc8,
   0x21e1cde6, 0xc33707d6, 0xf4d50d87, 0x455a14ed,
   0xa9e3e905, 0xfcefa3f8, 0x676f02d9, 0x8d2a4c8a,
   0xfffa3942, 0x8771f681, 0x6d9d6122, 0xfde5380c,
   0xa4beea44, 0x4bdecfa9, 0xf6bb4b60, 0xbebfbc70,
   0x289b7ec6, 0xeaa127fa, 0xd4ef3085, 0x04881d05,
   0xd9d4d039, 0xe6db99e5, 0x1fa27cf8, 0xc4ac5665,
   0xf4292244, 0x432aff97, 0xab9423a7, 0xfc93a039,
   0x655b59c3, 0x8f0ccc92, 0xffeff47d, 0x85845dd1,
   0x6fa87e4f, 0xfe2ce6e0, 0xa3014314, 0x4e0811a1,
   0xf7537e82, 0xbd3af235, 0x2ad7d2bb, 0xeb86d391]

/-- The 64 MD5 per-round left-rotation amounts `s`. -/
def md5S : List Nat :=
  [7, 12, 17, 22, 7, 12, 17, 22, 7, 12, 17, 22, 7, 12, 17, 22,
   5, 9, 14, 20, 5, 9, 14, 20, 5, 9, 14, 20, 5, 9, 14, 20,
   4, 11, 16, 23, 4, 11, 16, 23, 4, 11, 16, 23, 4, 11, 16, 23,
   6, 10, 15, 21, 6, 10, 15, 21, 6, 10, 15, 21, 6, 10, 15, 21]

/-- Mixing function and message-word index for MD5 round `i`. -/
def md5FG (b c d i : Nat) : Nat × Nat :=
  if i < 16 then ((b &&& c) ||| (not32 b &&& d), i)
  else if i < 32 then ((d &&& b) ||| (not32 d &&& c), (5 * i + 1) % 16)
  else if i < 48 then (Nat.xor (Nat.xor b c) d, (3 * i + 5) % 16)
  else (Nat.xor c (b ||| not32 d), (7 * i) % 16)

/-- One MD5 round: update the state `(a, b, c, d)` with round index `i`
over the 16 message words `m`. -/
def md5Round (m : List Nat) (st : Nat × Nat × Nat × Nat) (i : Nat) :
    Nat × Nat × Nat × Nat :=
  match st with
  | (a, b, c, d) =>
    let fg := md5FG b c d i
    let f := m32 (fg.1 + a + md5K.getD i 0 + m.getD fg.2 0)
    (d, m32 (b + rotl32 f (md5S.getD i 0)), b, c)

/-- Split a 64-byte chunk into its 16 little-endian 32-bit words. -/
def md5Words (chunk : List Nat) : List Nat :=
  (List.range 16).map fun j =>
    chunk.getD (4 * j) 0 + (chunk.getD (4 * j + 1) 0) <<< 8 +
      (chunk.getD (4 * j + 2) 0) <<< 16 + (chunk.getD (4 * j + 3) 0) <<< 24

/-- Process one 64-byte chunk: run the 64 rounds and add back into the
running state. -/
def md5Chunk (st : Nat × Nat × Nat × Nat) (chunk : List Nat) :
    Nat × Nat × Nat × Nat :=
  match st with
  | (a0, b0, c0, d0) =>
    match (List.range 64).foldl (md5Round (md5Words chunk)) (a0, b0, c0, d0) with
    | (a, b, c, d) => (m32 (a0 + a), m32 (b0 + b), m32 (c0 + c), m32 (d0 + d))

/-- Split a byte list into 64-byte chunks (fuel-based so that the kernel
can evaluate it; `fuel = l.length` always suffices since each step
consumes 64 bytes). -/
def chunks64Fuel : Nat → List Nat → List (List Nat)
  | 0, _ => []
  | _, [] => []
  | fuel + 1, a :: t => (a :: t).take 64 :: chunks64Fuel fuel ((a :: t).drop 64)

/-- Split a byte list into 64-byte chunks. -/
def chunks64 (l : List Nat) : List (List Nat) := chunks64Fuel l.length l

/-- A natural as `k` little-endian bytes. -/
def leBytes (k n : Nat) : List Nat :=
  (List.range k).map fun j => (n >>> (8 * j)) % 256

/-- MD5 padding: append `0x80`, zero bytes to reach 56 mod 64, then the
original bit length as 8 little-endian bytes. -/
def md5Pad (msg : List Nat) : List Nat :=
  let zeros := (56 + 64 - (msg.length + 1) % 64) % 64
  msg ++ [0x80] ++ List.replicate zeros 0 ++ leBytes 8 (msg.length * 8 % 2 ^ 64)

/-- Hex rendering (lowercase) of one byte. -/
def byteHex (b : Nat) : List Char :=
  let digits := "0123456789abcdef".data
  [digits.getD (b / 16 % 16) '0', digits.getD (b % 16) '0']

/-- MD5 digest of a byte list, as the usual 32-character lowercase hex
string. -/
def md5HexBytes (msg : List Nat) : String :=
  let st := (chunks64 (md5Pad msg)).foldl md5Chunk
    (0x67452301, 0xefcdab89, 0x98badcfe, 0x10325476)
  match st with
  | (a, b, c, d) =>
    ⟨(leBytes 4 a ++ leBytes 4 b ++ leBytes 4 c ++ leBytes 4 d).flatMap byteHex⟩

/-- UTF-8 encoding of one character, as byte values. -/
def utf8Char (c : Char) : List Nat :=
  let n := c.toNat
  if n < 0x80 then [n]
  else if n < 0x800 then [0xC0 ||| (n >>> 6), 0x80 ||| (n &&& 0x3F)]
  else if n < 0x10000 then
    [0xE0 ||| (n >>> 12), 0x80 ||| ((n >>> 6) &&& 0x3F), 0x80 ||| (n &&& 0x3F)]
  else
    [0xF0 ||| (n >>> 18), 0x80 ||| ((n >>> 12) &&& 0x3F),
     0x80 ||| ((n >>> 6) &&& 0x3F), 0x80 ||| (n &&& 0x3F)]

/-- UTF-8 encoding of a string (what Python's `str.encode("utf-8")`
produces). -/
def strBytes (s : String) : List Nat := s.data.flatMap utf8Char

/-- `hashlib.md5(s.encode("utf-8")).hexdigest()`. -/
def md5Hex (s : String) : String := md5HexBytes (strBytes s)

/-- RFC 1321 test vector: the empty message. -/
theorem md5Hex_empty : md5Hex "" = "d41d8cd98f00b204e9800998ecf8427e" := by
  rfl

/-- RFC 1321 test vector: `"abc"`. -/
theorem md5Hex_abc : md5Hex "abc" = "900150983cd24fb0d6963f7d28e17f72" := by
  rfl

/-! ## Qualified names: `FQTuple` (`dbsamizdat/samtypes.py`)

`FQTuple` is a frozen dataclass with optional fields; Python's f-string
interpolation renders `None` as the string `"None"`, which we mirror with
`pyStr`.
-/

/-- Python `str()` of an `Optional[str]` as it appears inside an f-string. -/
def pyStr : Option String → String
  | some s => s
  | none => "None"

/-- `samtypes.FQTuple`: schema, object name and (for functions) the
argument signature. -/
structure FQTuple where
  schema : Option String := some "public"
  object_name : Option String := none
  args : Option String := none
deriving DecidableEq, Repr

/-- `FQTuple.db_object_identity`: `"schema"."object_name"` with `(args)`
appended when `args` is not `None`. -/
def FQTuple.db_object_identity (t : FQTuple) : String :=
  match t.args with
  | some a => "\"" ++ pyStr t.schema ++ "\".\"" ++ pyStr t.object_name ++ "\"(" ++ a ++ ")"
  | none => "\"" ++ pyStr t.schema ++ "\".\"" ++ pyStr t.object_name ++ "\""

/-- Python's string comparison: lexicographic on code points. -/
def strLeB : List Char → List Char → Bool
  | [], _ => true
  | _ :: _, [] => false
  | a :: s, b :: t =>
    if a.toNat < b.toNat then true
    else if b.toNat < a.toNat then false
    else strLeB s t

/-- Python `s <= t` on strings. -/
def pyStrLe (s t : String) : Bool := strLeB s.data t.data

/-- `strLeB` is total. -/
theorem strLeB_total : ∀ s t : List Char, strLeB s t = true ∨ strLeB t s = true
  | [], _ => Or.inl rfl
  | _ :: _, [] => Or.inr rfl
  | a :: s, b :: t => by
    rcases Nat.lt_trichotomy a.toNat b.toNat with h | h | h
    · left; simp [strLeB, h]
    · rcases strLeB_total s t with hst | hts
      · left; simp [strLeB, h, hst]
      · right; simp [strLeB, h.symm, hts]
    · right; simp [strLeB, h]

/-- `strLeB` is transitive. -/
theorem strLeB_trans : ∀ s t u : List Char,
    strLeB s t = true → strLeB t u = true → strLeB s u = true
  | [], _, _ => fun _ _ => rfl
  | a :: s, [], u => fun h _ => by simp [strLeB] at h
  | a :: s, b :: t, [] => fun _ h => by simp [strLeB] at h
  | a :: s, b :: t, c :: u => fun h1 h2 => by
    simp only [strLeB] at h1 h2 ⊢
    by_cases hab : a.toNat < b.toNat
    · rw [if_pos hab] at h1
      by_cases hbc : b.toNat < c.toNat
      · rw [if_pos (Nat.lt_trans hab hbc)]
      · rw [if_neg hbc] at h2
        by_cases hcb : c.toNat < b.toNat
        · rw [if_pos hcb] at h2; exact absurd h2 (by simp)
        · rw [if_pos (show a.toNat < c.toNat by omega)]
    · rw [if_neg hab] at h1
      by_cases hba : b.toNat < a.toNat
      · rw [if_pos hba] at h1; exact absurd h1 (by simp)
      · rw [if_neg hba] at h1
        by_cases hbc : b.toNat < c.toNat
        · rw [if_pos (show a.toNat < c.toNat by omega)]
        · rw [if_neg hbc] at h2
          by_cases hcb : c.toNat < b.toNat
          · rw [if_pos hcb] at h2; exact absurd h2 (by simp)
          · rw [if_neg hcb] at h2
            rw [if_neg (show ¬ a.toNat < c.toNat by omega),
              if_neg (show ¬ c.toNat < a.toNat by omega)]
            exact strLeB_trans s t u h1 h2

/-- `strLeB` both ways forces equality (each code point, hence each
character, must agree). -/
theorem strLeB_antisymm : ∀ s t : List Char,
    strLeB s t = true → strLeB t s = true → s = t
  | [], [] => fun _ _ => rfl
  | [], _ :: _ => fun _ h => by simp [strLeB] at h
  | _ :: _, [] => fun h _ => by simp [strLeB] at h
  | a :: s, b :: t => fun h1 h2 => by
    simp only [strLeB] at h1 h2
    rcases Nat.lt_trichotomy a.toNat b.toNat with hab | hab | hab
    · rw [if_neg (show ¬ b.toNat < a.toNat by omega), if_pos hab] at h2
      exact absurd h2 (by simp)
    · have hc : a = b := Char.ext (UInt32.ext hab)
      rw [if_neg (show ¬ a.toNat < b.toNat by omega),
        if_neg (show ¬ b.toNat < a.toNat by omega)] at h1
      rw [if_neg (show ¬ b.toNat < a.toNat by omega),
        if_neg (show ¬ a.toNat < b.toNat by omega)] at h2
      rw [hc, strLeB_antisymm s t h1 h2]
    · rw [if_neg (show ¬ a.toNat < b.toNat by omega), if_pos hab] at h1
      exact absurd h1 (by simp)

/-- `FQTuple.__lt__` compares with `>` on the identity strings, so Python's
`sorted` arranges `FQTuple`s by *descending* `db_object_identity`.
`fqLE` is the corresponding non-strict order that a Python
`sorted(...)` output satisfies pairwise: `a` may precede `b` iff
`b.db_object_identity <= a.db_object_identity`. -/
def fqLE (a b : FQTuple) : Prop :=
  pyStrLe b.db_object_identity a.db_object_identity = true

instance : DecidableRel fqLE := fun a b =>
  inferInstanceAs (Decidable (_ = true))

instance : IsTotal FQTuple fqLE :=
  ⟨fun a b => (strLeB_total b.db_object_identity.data a.db_object_identity.data)⟩

instance : IsTrans FQTuple fqLE :=
  ⟨fun _ _ _ h1 h2 => strLeB_trans _ _ _ h2 h1⟩

/-- Python's `sorted(...)` on `FQTuple`s, driven by `FQTuple.__lt__`
(modelled as an insertion sort with the comparator `fqLE`). -/
def sortFQ (l : List FQTuple) : List FQTuple := List.insertionSort fqLE l

/-- Exceptions Python raises inside `FQTuple.fqify`. -/
inductive PyScalarErr where
  | indexError
  | typeError
deriving DecidableEq, Repr

/-- The reference forms `FQTuple.fqify` dispatches on: an `FQTuple`, a
`str`, a tuple of strings, or an object exposing an `fq()` method (whose
result the object reports). -/
inductive FQRef where
  | fqt (t : FQTuple)
  | strRef (s : String)
  | tupRef (elems : List String)
  | objWithFq (t : FQTuple)
deriving DecidableEq, Repr

/-- `FQTuple.fqify` (`samtypes.py` lines 63–94).  The tuple branch tests
`len(arg) == 1` first and would build `cls(schema=arg[1])`, so evaluating
`arg[1]` raises `IndexError`; tuples of length 0 or ≥ 4 match none of the
inner `if`s, the `elif` chain is exhausted, and the function returns
`None`. -/
def FQTuple.fqify : FQRef → Except PyScalarErr (Option FQTuple)
  | .fqt t => .ok (some t)
  | .strRef s => .ok (some { schema := some "public", object_name := some s })
  | .tupRef l =>
    if l.length = 1 then .error .indexError
    else if l.length = 2 then
      .ok (some { schema := some (l.getD 0 ""), object_name := some (l.getD 1 "") })
    else if l.length = 3 then
      .ok (some { schema := some (l.getD 0 ""), object_name := some (l.getD 1 ""),
                  args := some (l.getD 2 "") })
    else .ok none
  | .objWithFq t => .ok (some t)

/-! ## The samizdat class model (`dbsamizdat/samizdat.py`)

`definition_hash` (lines 134–144) reads, with `getattr(cls, attr, "")`,
the three attributes `sql_template`, `db_object_identity`,
`creation_identity`, joins them with `"|"` and hashes with MD5.
`creation_identity` exists only on function classes
(`SamizdatFunctionMeta`), so for non-functions the joined string carries a
trailing `"|"` for the missing attribute.  A class read back from the
database carries `implanted_hash`, which is returned directly.
-/

/-- The class-level data of a samizdat that `definition_hash`, `head_id`
and the loader consume.  `function_arguments_signature` is `some _`
exactly for function classes (`SamizdatFunction` defaults it to `""`);
other kinds lack the attribute. -/
structure SamizdatCls where
  schema : String := "public"
  name : String
  entityTypeName : String
  sql_template : String
  function_arguments_signature : Option String := none
  function_arguments : Option String := none
  implanted_hash : Option String := none
deriving DecidableEq, Repr

/-- The metaclass property `db_object_identity`: the rendering of
`cls.fq`, which is `(schema, name)` for most kinds and
`(schema, name, function_arguments_signature)` for functions.  (The
rendering function lives in `util.py`; its output format is the one
`samtypes.FQTuple.db_object_identity` produces.) -/
def SamizdatCls.db_object_identity (sd : SamizdatCls) : String :=
  match sd.function_arguments_signature with
  | some sig => "\"" ++ sd.schema ++ "\".\"" ++ sd.name ++ "\"(" ++ sig ++ ")"
  | none => "\"" ++ sd.schema ++ "\".\"" ++ sd.name ++ "\""

/-- `SamizdatFunctionMeta.creation_function_arguments`: `function_arguments`
if present, else `function_arguments_signature`. -/
def SamizdatCls.creation_function_arguments (sd : SamizdatCls) : String :=
  sd.function_arguments.getD (sd.function_arguments_signature.getD "")

/-- The metaclass property `creation_identity`
(`"schema"."name"(creation_function_arguments)`); only function classes
have the attribute, hence `Option`. -/
def SamizdatCls.creation_identity (sd : SamizdatCls) : Option String :=
  sd.function_arguments_signature.map fun _ =>
    "\"" ++ sd.schema ++ "\".\"" ++ sd.name ++ "\"(" ++ sd.creation_function_arguments ++ ")"

/-- `Samizdat.definition_hash` (`samizdat.py` lines 134–144): the
implanted hash when present, else
`md5("|".join(getattr(cls, a, "") for a in (sql_template,
db_object_identity, creation_identity)))`. -/
def SamizdatCls.definition_hash (sd : SamizdatCls) : String :=
  match sd.implanted_hash with
  | some h => h
  | none =>
    md5Hex (String.intercalate "|"
      [sd.sql_template, sd.db_object_identity, sd.creation_identity.getD ""])

/-! ## CPython string hashing, with the process seed explicit

`Samizdat.head_id` is
`hash((cls.schema, cls.name, cls.entity_type.name, cls.definition_hash()))`.
The builtin `hash` of a `str` in CPython is salted with a per-process
random key (`PYTHONHASHSEED`); only the hash of a tuple of *already
hashed* values is a pure combination.  We model this with the process
seed as an explicit parameter: two runs of the program are two values of
`seed`. -/

/-- Model of CPython's salted string hash: a 64-bit fold of the UTF-8
bytes whose initial state is the per-process seed.  The defining feature
kept from CPython is that the result depends on the seed (multiplication
by an odd constant modulo `2 ^ 64` makes the fold injective in the
state). -/
def pyStrHash (seed : Nat) (s : String) : Nat :=
  (strBytes s).foldl (fun h b => (h * 1000003 + b + 1) % 2 ^ 64) (seed % 2 ^ 64)

/-- Model of CPython's tuple hash: a seed-independent 64-bit combination
of the component hashes. -/
def pyTupleHash (hs : List Nat) : Nat :=
  hs.foldl (fun acc h => ((Nat.xor acc h) * 1000003 + 97) % 2 ^ 64) 3430008

/-- `Samizdat.head_id` (`samizdat.py` lines 221–223), with the CPython
process seed explicit:
`hash((schema, name, entity_type.name, definition_hash()))`. -/
def SamizdatCls.head_id (seed : Nat) (sd : SamizdatCls) : Nat :=
  pyTupleHash [pyStrHash seed sd.schema, pyStrHash seed sd.name,
    pyStrHash seed sd.entityTypeName, pyStrHash seed sd.definition_hash]

/-! ## Discovery deduplication (`dbsamizdat/loader.py`)

`get_samizdats` walks the subclass tree and fills
`unique: dict[str, SamizType]` with `unique.setdefault(elem.definition_hash(), elem)`,
then yields `unique.values()`: for each definition hash, the first class
encountered wins, and insertion order is preserved. -/

/-- The `setdefault` loop of `get_samizdats`: `seen` holds the hashes
already in the dict. -/
def dedupByHash : List SamizdatCls → List String → List SamizdatCls
  | [], _ => []
  | c :: rest, seen =>
    if c.definition_hash ∈ seen then dedupByHash rest seen
    else c :: dedupByHash rest (c.definition_hash :: seen)

/-- `loader.get_samizdats` (lines 60–75) applied to the sequence of
classes produced by the subclass walk. -/
def get_samizdats (l : List SamizdatCls) : List SamizdatCls := dedupByHash l []

/-! ### Claim C9 — `FQTuple.fqify` is partial on tuples -/

/-- C9: `FQTuple.fqify` returns an `FQTuple` on every documented
reference form (an `FQTuple`, a string, a 2-tuple, a 3-tuple, an object
with an `fq` attribute), raises `IndexError` on every 1-element tuple
(the branch evaluates `arg[1]`), and returns `None` on every tuple of
length ≥ 4 (all branches of the `elif` chain fall through). -/
theorem C9_fqify_partial_on_tuples :
    (∀ t, FQTuple.fqify (.fqt t) = .ok (some t)) ∧
    (∀ s, FQTuple.fqify (.strRef s) =
      .ok (some { schema := some "public", object_name := some s })) ∧
    (∀ a b, FQTuple.fqify (.tupRef [a, b]) =
      .ok (some { schema := some a, object_name := some b })) ∧
    (∀ a b c, FQTuple.fqify (.tupRef [a, b, c]) =
      .ok (some { schema := some a, object_name := some b, args := some c })) ∧
    (∀ t, FQTuple.fqify (.objWithFq t) = .ok (some t)) ∧
    (∀ a, FQTuple.fqify (.tupRef [a]) = .error .indexError) ∧
    (∀ l : List String, 4 ≤ l.length → FQTuple.fqify (.tupRef l) = .ok none) := by
  refine ⟨fun t => rfl, fun s => rfl, fun a b => rfl, fun a b c => rfl,
    fun t => rfl, fun a => rfl, fun l h => ?_⟩
  show (if l.length = 1 then _ else if l.length = 2 then _
    else if l.length = 3 then _ else Except.ok none) = Except.ok none
  rw [if_neg (by omega), if_neg (by omega), if_neg (by omega)]

/-- C9 witness: a concrete 4-tuple falls through and yields `None`. -/
theorem C9_fqify_witness :
    FQTuple.fqify (.tupRef ["a", "b", "c", "d"]) = .ok none :=
  C9_fqify_partial_on_tuples.2.2.2.2.2.2 ["a", "b", "c", "d"] (by decide)

/-! ### Claim C4 — the exact string `definition_hash` feeds to MD5

`"|".join` over the three `getattr(cls, attr, "")` values produces, for a
non-function (which has no `creation_identity` attribute),
`sql_template + "|" + db_object_identity + "|"` — with a trailing
separator for the missing third attribute.  The claim's
`sql_template | db_object_identity` (no other characters) is therefore
off by one `"|"`. -/

/-- A concrete view class, as in the spec's create-sync-drop scenario. -/
def exView : SamizdatCls :=
  { name := "V", entityTypeName := "VIEW", sql_template := "SELECT 1;" }

/-- C4 counterexample: for the concrete (non-function) view `V` the code's
`definition_hash` differs from the MD5 of
`sql_template | db_object_identity` claimed by the spec, because the code
hashes a string with a trailing `"|"`. -/
theorem C4_defhash_counterexample :
    exView.implanted_hash = none ∧ exView.function_arguments_signature = none ∧
    exView.definition_hash ≠
      md5Hex (exView.sql_template ++ "|" ++ exView.db_object_identity) := by
  refine ⟨rfl, rfl, ?_⟩
  decide

/-- Unfolding `"|".join [a, b, c]`. -/
theorem intercalate_bar_three (a b c : String) :
    String.intercalate "|" [a, b, c] = a ++ "|" ++ b ++ "|" ++ c := by
  simp [String.intercalate, String.intercalate.go, String.append_assoc]

/-- C4 (amended): for a samizdat without an implanted hash,
`definition_hash` is the MD5 hex digest of
`sql_template | db_object_identity | creation_identity-or-empty`; for
non-functions the third component is the empty string, so the hashed text
is `sql_template | db_object_identity |` with a trailing separator, and
for functions it is
`sql_template | db_object_identity | creation_identity`. -/
theorem C4_definition_hash_formula (sd : SamizdatCls)
    (h : sd.implanted_hash = none) :
    (sd.function_arguments_signature = none →
      sd.definition_hash =
        md5Hex (sd.sql_template ++ "|" ++ sd.db_object_identity ++ "|")) ∧
    (∀ ci, sd.creation_identity = some ci →
      sd.definition_hash =
        md5Hex (sd.sql_template ++ "|" ++ sd.db_object_identity ++ "|" ++ ci)) := by
  constructor
  · intro hf
    have hci : sd.creation_identity = none := by
      simp [SamizdatCls.creation_identity, hf]
    simp [SamizdatCls.definition_hash, h, hci, intercalate_bar_three]
  · intro ci hci
    simp [SamizdatCls.definition_hash, h, hci, intercalate_bar_three]

/-- C4 witness: the amended formula evaluated on the concrete view `V`. -/
theorem C4_definition_hash_witness :
    exView.definition_hash =
      md5Hex (exView.sql_template ++ "|" ++ exView.db_object_identity ++ "|") :=
  (C4_definition_hash_formula exView rfl).1 rfl

/-! ### Claim C3 — `head_id` and process independence

`head_id` is the builtin `hash` of a tuple of strings; CPython salts
string hashing with a per-process key, so the value is *not* stable
across processes (two different seeds give different values), though it
is deterministic within one process and depends only on
`(schema, name, kind, definition_hash)`. -/

/-- C3 counterexample: in two processes with different hash seeds the same
samizdat gets different `head_id` values. -/
theorem C3_head_id_process_dependent :
    exView.head_id 0 ≠ exView.head_id 1 := by
  decide

/-- C3 (amended): within one process (a fixed seed), `head_id` is a
function of `(schema, name, kind, definition_hash)` alone: two classes
agreeing on those four fields get equal `head_id`. -/
theorem C3_head_id_stable_within_process (seed : Nat) (sd sd' : SamizdatCls)
    (h1 : sd.schema = sd'.schema) (h2 : sd.name = sd'.name)
    (h3 : sd.entityTypeName = sd'.entityTypeName)
    (h4 : sd.definition_hash = sd'.definition_hash) :
    sd.head_id seed = sd'.head_id seed := by
  simp [SamizdatCls.head_id, h1, h2, h3, h4]

/-- A ghost reconstruction of `exView` (read back from the database): no
template, but an implanted hash equal to `exView`'s computed hash. -/
def exViewGhost : SamizdatCls :=
  { name := "V", entityTypeName := "VIEW", sql_template := "",
    implanted_hash := some "ae1f35dbc754210b0b0ca508ca81814d" }

/-- C3 witness: the declared view and its ghost agree on the four
components, so within one process they get the same `head_id`. -/
theorem C3_head_id_witness : exView.head_id 7 = exViewGhost.head_id 7 :=
  C3_head_id_stable_within_process 7 exView exViewGhost rfl rfl rfl (by decide)

/-! ### Claim C10 — discovery deduplicates by definition hash -/

/-- Membership in the `setdefault` loop: an element is yielded iff its
hash is not already in the dict and it is the first element of the
remaining walk with its hash. -/
theorem dedupByHash_mem (c : SamizdatCls) :
    ∀ (rest : List SamizdatCls) (seen : List String),
      c ∈ dedupByHash rest seen ↔
        (c.definition_hash ∉ seen ∧
          rest.find? (fun d => d.definition_hash == c.definition_hash) = some c)
  | [], seen => by simp [dedupByHash]
  | d :: rest, seen => by
    by_cases hd : d.definition_hash ∈ seen
    · rw [dedupByHash, if_pos hd]
      by_cases heq : d.definition_hash == c.definition_hash
      · have hce : d.definition_hash = c.definition_hash := by
          simpa using heq
        rw [List.find?_cons_of_pos (p := fun x => x.definition_hash == c.definition_hash) rest heq]
        rw [dedupByHash_mem c rest seen]
        constructor
        · rintro ⟨hns, -⟩; exact absurd (hce ▸ hd) hns
        · rintro ⟨hns, h⟩; exact absurd (hce ▸ hd) hns
      · rw [List.find?_cons_of_neg (p := fun x => x.definition_hash == c.definition_hash) rest (by simpa using heq)]
        exact dedupByHash_mem c rest seen
    · rw [dedupByHash, if_neg hd]
      by_cases heq : d.definition_hash == c.definition_hash
      · have hce : d.definition_hash = c.definition_hash := by simpa using heq
        rw [List.find?_cons_of_pos (p := fun x => x.definition_hash == c.definition_hash) rest heq]
        simp only [List.mem_cons]
        constructor
        · rintro (rfl | hmem)
          · exact ⟨hce ▸ hd, rfl⟩
          · rw [dedupByHash_mem c rest _] at hmem
            have hin : c.definition_hash ∈ d.definition_hash :: seen := by
              rw [← hce]; exact List.mem_cons_self _ _
            exact absurd hin hmem.1
        · rintro ⟨hns, hc⟩
          left; exact (Option.some_injective _ hc).symm ▸ rfl
      · have hne : d.definition_hash ≠ c.definition_hash := by simpa using heq
        rw [List.find?_cons_of_neg (p := fun x => x.definition_hash == c.definition_hash) rest (by simpa using heq)]
        simp only [List.mem_cons]
        rw [dedupByHash_mem c rest (d.definition_hash :: seen)]
        constructor
        · rintro (rfl | ⟨hns, hc⟩)
          · exact absurd rfl hne
          · exact ⟨fun hmem => hns (List.mem_cons_of_mem _ hmem), hc⟩
        · rintro ⟨hns, hc⟩
          right
          refine ⟨?_, hc⟩
          simpa [List.mem_cons, Ne.symm hne] using hns

/-- All elements yielded by the `setdefault` loop have pairwise distinct
hashes. -/
theorem dedupByHash_pairwise :
    ∀ (rest : List SamizdatCls) (seen : List String),
      (dedupByHash rest seen).Pairwise
        (fun a b => a.definition_hash ≠ b.definition_hash)
  | [], _ => by simp [dedupByHash]
  | d :: rest, seen => by
    by_cases hd : d.definition_hash ∈ seen
    · rw [dedupByHash, if_pos hd]; exact dedupByHash_pairwise rest seen
    · rw [dedupByHash, if_neg hd]
      refine List.Pairwise.cons ?_ (dedupByHash_pairwise rest _)
      intro b hb
      have := (dedupByHash_mem b rest (d.definition_hash :: seen)).mp hb
      intro hcontra
      exact this.1 (by simp [hcontra])

/-- C10: `get_samizdats` never yields two classes with the same
`definition_hash`; a class is yielded iff it is the first class of the
subclass walk carrying its hash — discovery deduplicates by definition
hash, not by class identity or FQN. -/
theorem C10_get_samizdats_dedup_by_hash (l : List SamizdatCls) :
    (get_samizdats l).Pairwise
      (fun a b => a.definition_hash ≠ b.definition_hash) ∧
    ∀ c, c ∈ get_samizdats l ↔
      l.find? (fun d => d.definition_hash == c.definition_hash) = some c := by
  refine ⟨dedupByHash_pairwise l [], fun c => ?_⟩
  rw [get_samizdats, dedupByHash_mem]
  simp

/-! ## The runner (`dbsamizdat/runner.py`, `dbsamizdat/runner/executor.py`)

`dbsamizdat/runner/__init__.py` loads the old monolithic module and
re-exports *its* `executor`, `txi_finalize` and every `cmd_*`; the
refactored `runner/executor.py` exists but is not wired in ("[TODO]" in
the package docstring).  Both executors are embedded below.
-/

/-! ### Claim C1 — `cmd_diff` exit codes -/

/-- Modelled from the spec: `issame`, the field of the comparison
`dbstate_equals_definedstate` returns, lives in `libdb.py`, which is not
under src/; per the spec (§4.5) it holds iff both excess sets are
empty. -/
def db_compare_issame (excess_dbstate excess_definedstate : Bool) : Bool :=
  !excess_dbstate && !excess_definedstate

/-- C1 — `cmd_diff` (`runner.py` lines 203–247), reduced to the exit code
as a function of which excess sets are non-empty.  The source exits 0
when `db_compare.issame`; otherwise it sets `exitcode = 100`,
`exitflag = 0` and then evaluates `exitflag | +1` and `exitflag | +2` as
bare expression statements — the results are discarded, no name is
rebound — and exits with `exitcode + exitflag = 100`. -/
def cmd_diff_exitcode (excess_dbstate excess_definedstate : Bool) : Nat :=
  if db_compare_issame excess_dbstate excess_definedstate then 0
  else
    let exitcode := 100
    let exitflag := 0
    let _discarded1 := exitflag ||| 1
    let _discarded2 := exitflag ||| 2
    exitcode + exitflag

/-- The exit codes the claim (and the `diff` subcommand's own help text,
`runner.py` line 415) describe: `100 + flags` with flag 1 for excess
database state and flag 2 for excess defined state. -/
def cmd_diff_exitcode_claimed (excess_dbstate excess_definedstate : Bool) : Nat :=
  if db_compare_issame excess_dbstate excess_definedstate then 0
  else 100 + (if excess_dbstate then 1 else 0) + (if excess_definedstate then 2 else 0)

/-- C1: `cmd_diff` exits 0 when the states agree, but in every
disagreeing case it exits 100 — never 101, 102 or 103 — because
`exitflag | +1` / `exitflag | +2` discard their results instead of
updating `exitflag` (the claimed codes would be 101, 102, 103). -/
theorem C1_cmd_diff_exit_codes :
    cmd_diff_exitcode false false = 0 ∧
    cmd_diff_exitcode true false = 100 ∧
    cmd_diff_exitcode false true = 100 ∧
    cmd_diff_exitcode true true = 100 ∧
    cmd_diff_exitcode_claimed true false = 101 ∧
    cmd_diff_exitcode_claimed false true = 102 ∧
    cmd_diff_exitcode_claimed true true = 103 := by
  decide

/-! ### Claim C2 — COMMITs under the `jumbo` discipline -/

/-- The executor's action kinds. -/
inductive DbAction where
  | create
  | sign
  | drop
  | refresh
  | nuke
deriving DecidableEq, Repr

/-- The string interpolated into `SAVEPOINT action_<action>`. -/
def DbAction.actionName : DbAction → String
  | .create => "create"
  | .sign => "sign"
  | .drop => "drop"
  | .refresh => "refresh"
  | .nuke => "nuke"

/-- SQL statements issued by the *active* executor (`runner.py` lines
275–331, the one re-exported by `dbsamizdat/runner/__init__.py`) while
processing a plan, on the success path.  After each action's
`RELEASE SAVEPOINT`, every non-`create` action is followed by `COMMIT;`
— the test does not consult `txdiscipline` at all (the parameter is kept
here to mirror the `args` the Python executor receives). -/
def executor_sqls (txdiscipline : String) (plan : List (DbAction × String)) :
    List String :=
  plan.flatMap fun p =>
    ["BEGIN;", "SAVEPOINT action_" ++ p.1.actionName ++ ";", p.2,
      "RELEASE SAVEPOINT action_" ++ p.1.actionName ++ ";"] ++
      (if p.1 ≠ DbAction.create then ["COMMIT;"] else [])

/-- SQL statements issued by the refactored executor
(`runner/executor.py` lines 67–153, success path): the `COMMIT` is
guarded by `args.txdiscipline == txstyle.CHECKPOINT.value`. -/
def executor_sqls_refactored (txdiscipline : String)
    (plan : List (DbAction × String)) : List String :=
  plan.flatMap fun p =>
    ["BEGIN;", "SAVEPOINT action_" ++ p.1.actionName ++ ";", p.2,
      "RELEASE SAVEPOINT action_" ++ p.1.actionName ++ ";"] ++
      (if txdiscipline == "checkpoint" ∧ p.1 ≠ DbAction.create then ["COMMIT;"]
       else [])

/-- `txi_finalize` (`runner.py` lines 105–115): `COMMIT` for jumbo,
`ROLLBACK` for dryrun, and a raised `KeyError` for anything else. -/
def txi_finalize (txdiscipline : String) : Except String String :=
  if txdiscipline == "jumbo" then .ok "COMMIT;"
  else if txdiscipline == "dryrun" then .ok "ROLLBACK;"
  else .error "Expected one of COMMIT or ROLLBACK"

/-- C2: under `jumbo` the *active* executor still emits `COMMIT;` after
each non-`create` action — shown by evaluating a two-drop plan, whose
trace contains a `COMMIT;` in the middle of the plan — while the
refactored (not wired in) executor emits exactly the
BEGIN/SAVEPOINT/sql/RELEASE frame with no `COMMIT` of its own under
`jumbo`, leaving the final `COMMIT;` to `txi_finalize` as the claim
describes. -/
theorem C2_jumbo_commit_behaviour :
    executor_sqls "jumbo"
        [(.drop, "DROP VIEW \"public\".\"A\" CASCADE;"),
         (.drop, "DROP VIEW \"public\".\"B\" CASCADE;")] =
      ["BEGIN;", "SAVEPOINT action_drop;", "DROP VIEW \"public\".\"A\" CASCADE;",
        "RELEASE SAVEPOINT action_drop;", "COMMIT;",
        "BEGIN;", "SAVEPOINT action_drop;", "DROP VIEW \"public\".\"B\" CASCADE;",
        "RELEASE SAVEPOINT action_drop;", "COMMIT;"] ∧
    (∀ plan, executor_sqls_refactored "jumbo" plan =
      plan.flatMap fun p =>
        ["BEGIN;", "SAVEPOINT action_" ++ p.1.actionName ++ ";", p.2,
          "RELEASE SAVEPOINT action_" ++ p.1.actionName ++ ";"]) ∧
    txi_finalize "jumbo" = .ok "COMMIT;" := by
  refine ⟨rfl, fun plan => ?_, rfl⟩
  unfold executor_sqls_refactored
  have hck : (("jumbo" : String) == "checkpoint") = false := by rfl
  simp [hck]

/-! ### Claim C5 — the `sign` failure recovery path

On any exception while executing a `sign` action's SQL, the inner
`except` handler rolls back to the savepoint, collects candidate
argument signatures from `get_dbstate`, and raises
`FunctionSignatureError` — but that `raise` happens *inside the outer
`try` block*, so the outer `except Exception as dberr` catches it and
re-raises `DatabaseError(f"sign failed", dberr, ...)` wrapping it.
-/

/-- Python exception values the executor can raise. -/
inductive PyExc where
  | dbError (msg : String)
  | functionSignatureError (schemaName fname : String)
      (candidate_arguments : List String)
  | databaseError (msg : String) (cause : PyExc)
deriving DecidableEq, Repr

/-- Modelled from the spec: `get_dbstate` lives in `libdb.py`, which is
not under src/; per the spec (§4.4) and the executor's own uses (`c[:2]`
compared against `(schema, function_name)`, `c[3]` read as the effective
argument signature), an introspection record carries the object's schema,
name, kind and argument signature. -/
structure DbStateRow where
  schemaName : String
  objName : String
  kindName : String
  argsSig : String
deriving DecidableEq, Repr

/-- The error path of the active executor (`runner.py` lines 303–323) for
one action whose SQL raised a database error with message `errmsg`:
returns the recovery SQL issued and the exception that escapes the
executor.  For `sign`, the inner handler issues
`ROLLBACK TO SAVEPOINT action_sign;`, filters `get_dbstate` on
`(schema, function_name)`, and raises `FunctionSignatureError`; that
exception propagates out of the inner handler, is caught by the outer
`except Exception as dberr`, and is re-raised wrapped as
`DatabaseError("sign failed", dberr, ...)`. -/
def executor_on_error (action : DbAction) (sdSchema sdFunctionName : String)
    (dbstate : List DbStateRow) (errmsg : String) : List String × PyExc :=
  if action = DbAction.sign then
    let candidate_args :=
      (dbstate.filter fun c =>
        c.schemaName == sdSchema && c.objName == sdFunctionName).map (·.argsSig)
    (["ROLLBACK TO SAVEPOINT action_sign;"],
      .databaseError "sign failed"
        (.functionSignatureError sdSchema sdFunctionName candidate_args))
  else
    ([], .databaseError (action.actionName ++ " failed") (.dbError errmsg))

/-- C5: evaluating the error path at the spec's own scenario (a function
declared with signature `x int` whose effective signature is `integer`):
the executor does roll back to the savepoint and does collect the
candidate signatures, but the exception that escapes is
`DatabaseError("sign failed", ...)` wrapping the
`FunctionSignatureError`, not the `FunctionSignatureError` itself. -/
theorem C5_sign_failure_wraps_exception :
    executor_on_error .sign "public" "f"
        [{ schemaName := "public", objName := "f", kindName := "FUNCTION",
           argsSig := "integer" },
         { schemaName := "public", objName := "g", kindName := "FUNCTION",
           argsSig := "text" }]
        "function signature mismatch" =
      (["ROLLBACK TO SAVEPOINT action_sign;"],
        .databaseError "sign failed"
          (.functionSignatureError "public" "f" ["integer"])) ∧
    (∀ s n cands,
      PyExc.databaseError "sign failed" (.functionSignatureError s n cands) ≠
        PyExc.functionSignatureError s n cands) := by
  refine ⟨rfl, fun s n cands h => ?_⟩
  exact PyExc.noConfusion h

/-! ## The dependency-graph engine (`src/dbsamizdat/libgraph.py`)

Nodes are the samizdats' qualified names.  `depsort` builds
`{sd.fq: sd.fqdeps_on()}`, feeds it to the external `toposort` library
(which yields levels: repeatedly, the set of items with no remaining
dependencies), sorts each level with Python's `sorted` (driven by
`FQTuple.__lt__`), and maps names back through `{sd.fq: sd}`.
-/

/-- A samizdat as the graph engine sees it: qualified name, kind (the
`entity_type.name` string, `"MATVIEW"` for materialized views), and the
two normalized dependency sets `fqdeps_on()` / `fqdeps_on_unmanaged()`. -/
structure GNode where
  fq : FQTuple
  entityTypeName : String
  deps_on : List FQTuple := []
  deps_on_unmanaged : List FQTuple := []
deriving DecidableEq, Repr

/-- Lookup in `{sd.fq: sd for sd in samizdats}` (with distinct names the
first match is the unique one). -/
def samizdat_map_get (sds : List GNode) (n : FQTuple) : Option GNode :=
  sds.find? fun sd => sd.fq == n

/-- `node_dump`: all nodes, managed or unmanaged
(`reduce(or_, (sd.fqdeps_on_unmanaged() | {sd.fq} ...))`, as a list with
set-membership semantics). -/
def node_dump (sds : List GNode) : List FQTuple :=
  sds.flatMap fun sd => sd.deps_on_unmanaged ++ [sd.fq]

/-- The preparation step of `toposort.toposort`: discard
self-dependencies, then give every item appearing only as a dependency an
empty dependency set. -/
def toposortPrep (data : List (FQTuple × List FQTuple)) :
    List (FQTuple × List FQTuple) :=
  let data1 := data.map fun p => (p.1, p.2.filter (· ≠ p.1))
  let keys := data.map Prod.fst
  let extras := ((data1.flatMap Prod.snd).filter (· ∉ keys)).dedup
  data1 ++ extras.map fun n => (n, [])

/-- One pass of `toposort.toposort`'s loop:
`ordered = {item for item, dep in data.items() if len(dep) == 0}`. -/
def toposortOrdered (data : List (FQTuple × List FQTuple)) : List FQTuple :=
  (data.filter fun p => p.2.isEmpty).map Prod.fst

/-- The data for the next pass:
`{item: (dep - ordered) for item, dep in data.items() if item not in ordered}`. -/
def toposortNext (data : List (FQTuple × List FQTuple)) :
    List (FQTuple × List FQTuple) :=
  (data.filter fun p => p.1 ∉ toposortOrdered data).map
    fun p => (p.1, p.2.filter (· ∉ toposortOrdered data))

/-- The main loop of `toposort.toposort`, with explicit fuel: each pass
emits `ordered`, the items with no remaining dependencies, and removes
them from the data and from every dependency set; the loop stops when
`ordered` is empty (a non-empty remainder is the library's
`CircularDependencyError`).  Each productive pass removes at least one
item, so `data.length` passes always suffice. -/
def toposortLevels : Nat → List (FQTuple × List FQTuple) → List (List FQTuple)
  | 0, _ => []
  | fuel + 1, data =>
    if (toposortOrdered data).isEmpty then []
    else toposortOrdered data :: toposortLevels fuel (toposortNext data)

/-- The `{sd.fq: sd.fqdeps_on()}` dictionary handed to `toposort`,
after the library's preparation step. -/
def depsortData (sds : List GNode) : List (FQTuple × List FQTuple) :=
  toposortPrep (sds.map fun sd => (sd.fq, sd.deps_on))

/-- The levels the `toposort` generator yields for `depsort`'s data. -/
def depsortLevels (sds : List GNode) : List (List FQTuple) :=
  toposortLevels (depsortData sds).length (depsortData sds)

/-- `sorted(level) for level in toposort(depmap)`. -/
def depsortSortedLevels (sds : List GNode) : List (List FQTuple) :=
  (depsortLevels sds).map sortFQ

/-- `depsort` (`libgraph.py` lines 64–70):
`[samizdat_map[name] for name in chain(*(sorted(level) for level in
toposort(depmap)))]` (the lookup, a `KeyError` in Python if a name were
no key, is total here because under `sanity_check`ed inputs every emitted
name is a key). -/
def depsort (sds : List GNode) : List GNode :=
  (depsortSortedLevels sds).flatten.filterMap (samizdat_map_get sds)

/-- The dependencies the graph data associates with a name: `fqdeps_on()`
of the node registered under it. -/
def depsOf (sds : List GNode) (n : FQTuple) : List FQTuple :=
  ((samizdat_map_get sds n).map GNode.deps_on).getD []

/-- Distinct qualified names (`sanity_check`'s `NameClash` guard). -/
def keysNodup (sds : List GNode) : Prop := (sds.map GNode.fq).Nodup

/-- Every managed dependency names a samizdat in the set
(`sanity_check`'s `DanglingReference` guard). -/
def depsClosed (sds : List GNode) : Prop :=
  ∀ sd ∈ sds, ∀ d ∈ sd.deps_on, d ∈ sds.map GNode.fq

/-- No samizdat lists itself in `deps_on` (`sanity_check`'s
self-reference guard). -/
def noSelfDeps (sds : List GNode) : Prop := ∀ sd ∈ sds, sd.fq ∉ sd.deps_on

/-- Distinct canonical identities (guaranteed for `sanity_check`ed sets,
whose validated names contain no `"`). -/
def identsNodup (sds : List GNode) : Prop :=
  (sds.map fun sd => sd.fq.db_object_identity).Nodup

/-! ### Facts about the dictionary lookups -/

/-- A successful lookup returns a member carrying the requested name. -/
theorem samizdat_map_get_some {sds : List GNode} {n : FQTuple} {sd : GNode}
    (h : samizdat_map_get sds n = some sd) : sd ∈ sds ∧ sd.fq = n := by
  refine ⟨List.mem_of_find?_eq_some h, ?_⟩
  have h2 := List.find?_some h
  simpa using h2

/-- With distinct names, looking up a member's own name returns that
member. -/
theorem samizdat_map_get_of_mem :
    ∀ {sds : List GNode}, keysNodup sds →
      ∀ {sd : GNode}, sd ∈ sds → samizdat_map_get sds sd.fq = some sd := by
  intro sds
  induction sds with
  | nil => intro _ sd h; cases h
  | cons a rest ih =>
    intro hk sd hmem
    have hk0 : (List.map GNode.fq (a :: rest)).Nodup := hk
    rw [List.map_cons, List.nodup_cons] at hk0
    obtain ⟨hk1, hk2⟩ := hk0
    rcases List.mem_cons.mp hmem with rfl | hmem'
    · unfold samizdat_map_get
      rw [List.find?_cons_of_pos (p := fun x => x.fq == sd.fq) rest (by simp)]
    · have hne : ¬(a.fq == sd.fq) = true := by
        simp only [beq_iff_eq]
        intro he
        exact hk1 (he ▸ List.mem_map_of_mem GNode.fq hmem')
      unfold samizdat_map_get
      rw [List.find?_cons_of_neg (p := fun x => x.fq == sd.fq) rest hne]
      exact ih hk2 hmem'

/-- Lookup of any present name succeeds with a member carrying it. -/
theorem samizdat_map_get_mem_keys {sds : List GNode} {n : FQTuple}
    (h : n ∈ sds.map GNode.fq) :
    ∃ sd, samizdat_map_get sds n = some sd ∧ sd.fq = n ∧ sd ∈ sds := by
  rcases List.mem_map.mp h with ⟨sd, hmem, rfl⟩
  have hs : (sds.find? (fun x => x.fq == sd.fq)).isSome := by
    rw [List.find?_isSome]
    exact ⟨sd, hmem, by simp⟩
  obtain ⟨x, hx⟩ := Option.isSome_iff_exists.mp hs
  obtain ⟨hx1, hx2⟩ := samizdat_map_get_some hx
  exact ⟨x, hx, hx2, hx1⟩

/-! ### Causality of the toposort levels -/

/-- `LevelsCausal D acc levels`: reading the levels left to right, every
member's dependencies (per `D`) lie in `acc` extended with the previous
levels. -/
def LevelsCausal (D : FQTuple → List FQTuple) :
    List FQTuple → List (List FQTuple) → Prop
  | _, [] => True
  | acc, L :: rest =>
      (∀ x ∈ L, ∀ d ∈ D x, d ∈ acc) ∧ LevelsCausal D (acc ++ L) rest

/-- The toposort loop maintains the invariant "remaining dependencies =
original dependencies minus everything emitted", and so its levels are
causal: an item only appears once all its dependencies have appeared. -/
theorem toposortLevels_causal (D : FQTuple → List FQTuple) :
    ∀ (fuel : Nat) (data : List (FQTuple × List FQTuple)) (acc : List FQTuple),
      (∀ p ∈ data, ∀ d, d ∈ p.2 ↔ (d ∈ D p.1 ∧ d ∉ acc)) →
      LevelsCausal D acc (toposortLevels fuel data)
  | 0, data, acc => fun _ => trivial
  | fuel + 1, data, acc => fun hdata => by
    rw [toposortLevels]
    by_cases hempty : (toposortOrdered data).isEmpty
    · rw [if_pos hempty]; exact trivial
    · rw [if_neg hempty]
      refine ⟨?_, ?_⟩
      · intro x hx d hd
        rcases List.mem_map.mp hx with ⟨p, hpfil, rfl⟩
        rcases List.mem_filter.mp hpfil with ⟨hpdata, hpe⟩
        have hpnil : p.2 = [] := by
          simpa [List.isEmpty_iff] using hpe
        have hiff := hdata p hpdata d
        rw [hpnil] at hiff
        by_contra hnacc
        exact (List.not_mem_nil d) (hiff.mpr ⟨hd, hnacc⟩)
      · apply toposortLevels_causal D fuel _ _
        intro p' hp' d
        rcases List.mem_map.mp hp' with ⟨p, hpfil, rfl⟩
        rcases List.mem_filter.mp hpfil with ⟨hpdata, -⟩
        simp only [List.mem_filter, decide_not, Bool.not_eq_true',
          decide_eq_false_iff_not, List.mem_append]
        constructor
        · rintro ⟨hdp, hdno⟩
          have hiff := (hdata p hpdata d).mp hdp
          push_neg
          exact ⟨hiff.1, hiff.2, hdno⟩
        · rintro ⟨hdD, hdnacc⟩
          push_neg at hdnacc
          exact ⟨(hdata p hpdata d).mpr ⟨hdD, hdnacc.1⟩, hdnacc.2⟩

/-- Every name a level contains is a key of the data handed to the
loop. -/
theorem toposortLevels_subset_keys :
    ∀ (fuel : Nat) (data : List (FQTuple × List FQTuple)),
      ∀ L ∈ toposortLevels fuel data, ∀ x ∈ L, x ∈ data.map Prod.fst
  | 0, data => by simp [toposortLevels]
  | fuel + 1, data => by
    rw [toposortLevels]
    by_cases hempty : (toposortOrdered data).isEmpty
    · rw [if_pos hempty]; simp
    · rw [if_neg hempty]
      intro L hL x hx
      rcases List.mem_cons.mp hL with rfl | hL'
      · rcases List.mem_map.mp hx with ⟨p, hpfil, rfl⟩
        exact List.mem_map_of_mem Prod.fst (List.mem_filter.mp hpfil).1
      · have hxk := toposortLevels_subset_keys fuel _ L hL' x hx
        unfold toposortNext at hxk
        rw [List.map_map] at hxk
        rcases List.mem_map.mp hxk with ⟨p, hpfil, rfl⟩
        simpa using List.mem_map_of_mem Prod.fst (List.mem_filter.mp hpfil).1

/-- Flattened form of causality: at every position of the flattened
levels, all dependencies of the name at that position occur among `acc`
and the names at strictly earlier positions. -/
theorem levelsCausal_flatten_take (D : FQTuple → List FQTuple) :
    ∀ (levels : List (List FQTuple)) (acc : List FQTuple),
      LevelsCausal D acc levels →
      ∀ (k : Nat) (hk : k < levels.flatten.length),
        ∀ d ∈ D (levels.flatten.get ⟨k, hk⟩), d ∈ acc ++ levels.flatten.take k
  | [], acc => fun _ k hk => by simp at hk
  | L :: rest, acc => fun hc k hk => by
    obtain ⟨h1, h2⟩ := hc
    intro d hd
    have hk' : k < (L ++ rest.flatten).length := hk
    by_cases hkL : k < L.length
    · have hget : (L :: rest).flatten.get ⟨k, hk⟩ = L.get ⟨k, hkL⟩ :=
        List.get_append k hkL
      rw [hget] at hd
      have hdacc : d ∈ acc := h1 _ (List.get_mem L _ _) d hd
      exact List.mem_append_left _ hdacc
    · push_neg at hkL
      have hk2 : k - L.length < rest.flatten.length := by
        have hlen : (L :: rest).flatten.length = L.length + rest.flatten.length := by
          simp
        omega
      have hget : (L :: rest).flatten.get ⟨k, hk⟩ =
          rest.flatten.get ⟨k - L.length, hk2⟩ := by
        show (L ++ rest.flatten).get ⟨k, hk'⟩ = _
        simp only [List.get_eq_getElem]
        rw [List.getElem_append_right hkL]
      rw [hget] at hd
      have hrec := levelsCausal_flatten_take D rest (acc ++ L) h2
        (k - L.length) hk2 d hd
      show d ∈ acc ++ (L ++ rest.flatten).take k
      rw [List.take_append_eq_append_take, List.take_of_length_le hkL]
      rw [List.append_assoc] at hrec
      exact hrec

/-- For a set that passes `sanity_check` (dependencies resolve, no
self-references), the `toposort` library's preparation step changes
nothing: there are no self-dependencies to discard and no items that
appear only as dependencies. -/
theorem depsortData_eq_of_checked (sds : List GNode)
    (hclosed : depsClosed sds) (hself : noSelfDeps sds) :
    depsortData sds = sds.map fun sd => (sd.fq, sd.deps_on) := by
  unfold depsortData toposortPrep
  show ((sds.map fun sd => (sd.fq, sd.deps_on)).map
      (fun p => (p.1, p.2.filter (· ≠ p.1)))) ++
    (((((sds.map fun sd => (sd.fq, sd.deps_on)).map
      (fun p => (p.1, p.2.filter (· ≠ p.1)))).flatMap Prod.snd).filter
      (· ∉ (sds.map fun sd => (sd.fq, sd.deps_on)).map Prod.fst)).dedup.map
      (fun n => (n, []))) = sds.map fun sd => (sd.fq, sd.deps_on)
  have h1 : (sds.map fun sd => (sd.fq, sd.deps_on)).map
      (fun p => (p.1, p.2.filter (· ≠ p.1))) =
      sds.map fun sd => (sd.fq, sd.deps_on) := by
    rw [List.map_map]
    apply List.map_congr_left
    intro sd hsd
    simp only [Function.comp]
    congr 1
    rw [List.filter_eq_self]
    intro d hd
    simp only [decide_eq_true_eq]
    intro he
    exact hself sd hsd (he ▸ hd)
  rw [h1]
  have h2 : (((sds.map fun sd => (sd.fq, sd.deps_on)).flatMap Prod.snd).filter
      (· ∉ (sds.map fun sd => (sd.fq, sd.deps_on)).map Prod.fst)) = [] := by
    rw [List.filter_eq_nil_iff]
    intro d hd
    rcases List.mem_flatMap.mp hd with ⟨p, hp, hdp⟩
    rcases List.mem_map.mp hp with ⟨sd, hsd, rfl⟩
    simp only [decide_not, Bool.not_eq_true', decide_eq_false_iff_not, not_not]
    have hdk := hclosed sd hsd d hdp
    rw [List.map_map]
    rcases List.mem_map.mp hdk with ⟨sd', hsd', heq⟩
    exact List.mem_map.mpr ⟨sd', hsd', by simpa using heq⟩
  rw [h2]
  simp

/-- Python's `sorted` returns a permutation of its input. -/
theorem sortFQ_perm (l : List FQTuple) : (sortFQ l).Perm l :=
  List.perm_insertionSort fqLE l

/-- Python's `sorted` output is pairwise `fqLE` — i.e. *descending* on
`db_object_identity`, because `FQTuple.__lt__` inverts the comparison. -/
theorem sortFQ_sorted (l : List FQTuple) : (sortFQ l).Pairwise fqLE :=
  List.sorted_insertionSort fqLE l

/-- Two sorted lists that are permutations of each other and whose
identities are distinct are equal (local antisymmetry: `fqLE` both ways
forces equal identity strings, and distinctness then forces equal
elements). -/
theorem sorted_perm_eq_of_nodup_idents (l₁ : List FQTuple) :
    ∀ l₂ : List FQTuple, l₁.Perm l₂ → l₁.Pairwise fqLE → l₂.Pairwise fqLE →
      (l₁.map FQTuple.db_object_identity).Nodup → l₁ = l₂ := by
  induction l₁ with
  | nil =>
    intro l₂ hp _ _ _
    exact hp.nil_eq
  | cons a t ih =>
    intro l₂ hp hs1 hs2 hn
    cases l₂ with
    | nil =>
      have := hp.length_eq
      simp at this
    | cons b t₂ =>
      have hab : a = b := by
        have ha2 : a ∈ b :: t₂ := hp.mem_iff.mp (List.mem_cons_self a t)
        have hb1 : b ∈ a :: t := hp.mem_iff.mpr (List.mem_cons_self b t₂)
        rcases List.mem_cons.mp ha2 with h | ha2'
        · exact h
        rcases List.mem_cons.mp hb1 with h | hb1'
        · exact h.symm
        have h1 : fqLE a b := (List.pairwise_cons.mp hs1).1 b hb1'
        have h2 : fqLE b a := (List.pairwise_cons.mp hs2).1 a ha2'
        have hid : a.db_object_identity = b.db_object_identity :=
          String.ext (strLeB_antisymm _ _ h2 h1)
        have hn0 : (List.map FQTuple.db_object_identity (a :: t)).Nodup := hn
        rw [List.map_cons, List.nodup_cons] at hn0
        exact absurd (hid ▸ List.mem_map_of_mem FQTuple.db_object_identity hb1')
          hn0.1
      subst hab
      have ht : t.Perm t₂ := hp.cons_inv
      have hn0 : (List.map FQTuple.db_object_identity (a :: t)).Nodup := hn
      rw [List.map_cons, List.nodup_cons] at hn0
      have := ih t₂ ht (List.pairwise_cons.mp hs1).2 (List.pairwise_cons.mp hs2).2
        hn0.2
      rw [this]

/-- `LevelsCausal` only depends on the membership of the accumulator. -/
theorem levelsCausal_congr_acc (D : FQTuple → List FQTuple) :
    ∀ (levels : List (List FQTuple)) (acc₁ acc₂ : List FQTuple),
      (∀ d, d ∈ acc₁ ↔ d ∈ acc₂) →
      LevelsCausal D acc₁ levels → LevelsCausal D acc₂ levels
  | [], _, _ => fun _ _ => trivial
  | L :: rest, acc₁, acc₂ => fun hacc hc => by
    obtain ⟨h1, h2⟩ := hc
    refine ⟨fun x hx d hd => (hacc d).mp (h1 x hx d hd), ?_⟩
    apply levelsCausal_congr_acc D rest (acc₁ ++ L) (acc₂ ++ L)
    · intro d
      simp only [List.mem_append]
      rw [hacc d]
    · exact h2

/-- Sorting each level preserves causality (sorting permutes a level). -/
theorem levelsCausal_map_sortFQ (D : FQTuple → List FQTuple) :
    ∀ (levels : List (List FQTuple)) (acc : List FQTuple),
      LevelsCausal D acc levels → LevelsCausal D acc (levels.map sortFQ)
  | [], _ => fun _ => trivial
  | L :: rest, acc => fun hc => by
    obtain ⟨h1, h2⟩ := hc
    refine ⟨fun x hx d hd => h1 x ((sortFQ_perm L).mem_iff.mp hx) d hd, ?_⟩
    apply levelsCausal_congr_acc D _ (acc ++ L) (acc ++ sortFQ L)
    · intro d
      simp only [List.mem_append]
      rw [(sortFQ_perm L).mem_iff]
    · exact levelsCausal_map_sortFQ D rest (acc ++ L) h2

/-- Feeding the loop permuted data (Python's set/dict iteration order is
not fixed across processes) yields the *same* sorted levels: each level
is determined as a set by the data, and sorting with distinct identities
canonicalizes it. -/
theorem toposortLevels_map_sortFQ_perm :
    ∀ (fuel : Nat) (d₁ d₂ : List (FQTuple × List FQTuple)),
      d₁.Perm d₂ →
      ((d₁.map Prod.fst).map FQTuple.db_object_identity).Nodup →
      (toposortLevels fuel d₁).map sortFQ = (toposortLevels fuel d₂).map sortFQ
  | 0, _, _ => fun _ _ => rfl
  | fuel + 1, d₁, d₂ => fun hp hn => by
    have hop : (toposortOrdered d₁).Perm (toposortOrdered d₂) :=
      (hp.filter _).map _
    have hie : (toposortOrdered d₁).isEmpty = (toposortOrdered d₂).isEmpty := by
      have hl := hop.length_eq
      rcases h1 : toposortOrdered d₁ with _ | ⟨x, xs⟩ <;>
        rcases h2 : toposortOrdered d₂ with _ | ⟨y, ys⟩ <;>
        simp_all
    rw [toposortLevels, toposortLevels]
    by_cases h1e : (toposortOrdered d₁).isEmpty
    · rw [if_pos h1e, if_pos (hie ▸ h1e)]
    · rw [if_neg h1e, if_neg (hie ▸ h1e)]
      rw [List.map_cons, List.map_cons]
      have hsubo : (toposortOrdered d₁).Sublist (d₁.map Prod.fst) :=
        (List.filter_sublist d₁).map Prod.fst
      have hno1 : ((toposortOrdered d₁).map FQTuple.db_object_identity).Nodup :=
        List.Nodup.sublist (hsubo.map FQTuple.db_object_identity) hn
      have hnext : toposortNext d₂ =
          (d₂.filter fun p => p.1 ∉ toposortOrdered d₁).map
            (fun p => (p.1, p.2.filter (· ∉ toposortOrdered d₁))) := by
        unfold toposortNext
        rw [List.filter_congr (fun p _ =>
          decide_eq_decide.mpr (not_congr hop.symm.mem_iff))]
        apply List.map_congr_left
        intro p _
        congr 1
        exact List.filter_congr (fun d _ =>
          decide_eq_decide.mpr (not_congr hop.symm.mem_iff))
      congr 1
      · apply sorted_perm_eq_of_nodup_idents
        · exact ((sortFQ_perm _).trans hop).trans (sortFQ_perm _).symm
        · exact sortFQ_sorted _
        · exact sortFQ_sorted _
        · exact ((sortFQ_perm (toposortOrdered d₁)).map
            FQTuple.db_object_identity).nodup_iff.mpr hno1
      · rw [hnext]
        have hpnext : (toposortNext d₁).Perm
            ((d₂.filter fun p => p.1 ∉ toposortOrdered d₁).map
              (fun p => (p.1, p.2.filter (· ∉ toposortOrdered d₁)))) :=
          (hp.filter _).map _
        apply toposortLevels_map_sortFQ_perm fuel _ _ hpnext
        have hkeys : ((toposortNext d₁).map Prod.fst).Sublist
            (d₁.map Prod.fst) := by
          unfold toposortNext
          rw [List.map_map]
          exact (List.filter_sublist d₁).map _
        exact List.Nodup.sublist (hkeys.map _) hn

/-- When every name in a list is a registered key, `depsort`'s final
lookup pass reproduces the name sequence: the resulting nodes' names are
exactly the flattened sorted levels. -/
theorem filterMap_map_fq (sds : List GNode) :
    ∀ l : List FQTuple, (∀ n ∈ l, n ∈ sds.map GNode.fq) →
      (l.filterMap (samizdat_map_get sds)).map GNode.fq = l
  | [] => fun _ => rfl
  | n :: l => fun h => by
    obtain ⟨sd, hget, hfq, -⟩ :=
      samizdat_map_get_mem_keys (h n (List.mem_cons_self n l))
    simp only [List.filterMap_cons, hget, List.map_cons]
    rw [hfq, filterMap_map_fq sds l (fun m hm => h m (List.mem_cons_of_mem _ hm))]

/-- Every node produced by `depsort`'s lookup pass is registered under
its own name. -/
theorem mem_filterMap_get {sds : List GNode} {l : List FQTuple} {y : GNode}
    (hy : y ∈ l.filterMap (samizdat_map_get sds)) :
    samizdat_map_get sds y.fq = some y := by
  rcases List.mem_filterMap.mp hy with ⟨n, -, hget⟩
  have h2 := samizdat_map_get_some hget
  rw [h2.2]
  exact hget

/-- Distinct identities imply distinct names. -/
theorem keysNodup_of_idents {sds : List GNode} (h : identsNodup sds) :
    keysNodup sds := by
  apply List.Nodup.of_map FQTuple.db_object_identity
  rw [List.map_map]
  exact h

/-- C6 (amended): for every set accepted by `sanity_check` (distinct
canonical identities, resolvable dependencies, no self-references),
`depsort` (1) returns a linear extension of the dependency relation —
every node's dependencies occur at strictly earlier positions; (2) is
permutation-invariant, so repeated runs over Python's unordered sets
yield identical sequences; and (3) orders each topological layer
*descending* lexicographically on canonical identity (the claim says
ascending, but `FQTuple.__lt__` inverts the comparison). -/
theorem C6_depsort_properties (sds : List GNode)
    (hid : identsNodup sds) (hclosed : depsClosed sds) (hself : noSelfDeps sds) :
    (∀ (k : Nat) (hk : k < (depsort sds).length),
      ∀ d ∈ ((depsort sds).get ⟨k, hk⟩).deps_on,
        d ∈ ((depsort sds).take k).map GNode.fq) ∧
    (∀ sds' : List GNode, sds.Perm sds' → depsort sds = depsort sds') ∧
    (∀ L ∈ depsortSortedLevels sds, L.Pairwise fqLE) := by
  have hkeys : keysNodup sds := keysNodup_of_idents hid
  have hdata := depsortData_eq_of_checked sds hclosed hself
  have hinit : ∀ p ∈ depsortData sds, ∀ d,
      d ∈ p.2 ↔ (d ∈ depsOf sds p.1 ∧ d ∉ ([] : List FQTuple)) := by
    rw [hdata]
    intro p hp d
    rcases List.mem_map.mp hp with ⟨sd, hsd, rfl⟩
    simp only [List.not_mem_nil, not_false_iff, and_true]
    unfold depsOf
    rw [samizdat_map_get_of_mem hkeys hsd]
    simp
  have hcausal : LevelsCausal (depsOf sds) [] (depsortLevels sds) :=
    toposortLevels_causal _ _ _ [] hinit
  have hcausalS : LevelsCausal (depsOf sds) [] (depsortSortedLevels sds) :=
    levelsCausal_map_sortFQ _ _ [] hcausal
  have hflatkeys : ∀ n ∈ (depsortSortedLevels sds).flatten, n ∈ sds.map GNode.fq := by
    intro n hn
    rcases List.mem_flatten.mp hn with ⟨L, hL, hnL⟩
    rcases List.mem_map.mp hL with ⟨lvl, hlvl, rfl⟩
    have hmem := (sortFQ_perm lvl).mem_iff.mp hnL
    have hk := toposortLevels_subset_keys _ _ lvl hlvl n hmem
    rw [hdata, List.map_map] at hk
    simpa using hk
  have hmapfq : (depsort sds).map GNode.fq = (depsortSortedLevels sds).flatten :=
    filterMap_map_fq sds _ hflatkeys
  refine ⟨?_, ?_, ?_⟩
  · intro k hk d hd
    have hlen : (depsort sds).length = (depsortSortedLevels sds).flatten.length := by
      have hc := congrArg List.length hmapfq
      rw [List.length_map] at hc
      exact hc
    have hk' : k < (depsortSortedLevels sds).flatten.length := hlen ▸ hk
    have hmaplen : k < ((depsort sds).map GNode.fq).length := by
      rw [List.length_map]; exact hk
    have hgetfq : (depsortSortedLevels sds).flatten.get ⟨k, hk'⟩ =
        ((depsort sds).get ⟨k, hk⟩).fq := by
      have h1 : ((depsort sds).map GNode.fq).get ⟨k, hmaplen⟩ =
          GNode.fq ((depsort sds).get ⟨k, hk⟩) := by
        simp [List.get_eq_getElem, List.getElem_map]
      rw [← h1]
      exact (List.get_of_eq hmapfq ⟨k, hmaplen⟩).symm
    have hx : samizdat_map_get sds ((depsort sds).get ⟨k, hk⟩).fq =
        some ((depsort sds).get ⟨k, hk⟩) :=
      mem_filterMap_get (List.get_mem _ _ _)
    have hD : depsOf sds ((depsort sds).get ⟨k, hk⟩).fq =
        ((depsort sds).get ⟨k, hk⟩).deps_on := by
      unfold depsOf
      rw [hx]
      rfl
    have htake := levelsCausal_flatten_take _ _ [] hcausalS k hk' d
      (by rw [hgetfq, hD]; exact hd)
    rw [List.nil_append, ← hmapfq, ← List.map_take] at htake
    exact htake
  · intro sds' hp
    have hid' : identsNodup sds' := (hp.map _).nodup_iff.mp hid
    have hclosed' : depsClosed sds' := by
      intro sd hsd d hd
      have hm := hclosed sd (hp.mem_iff.mpr hsd) d hd
      exact (hp.map GNode.fq).mem_iff.mp hm
    have hself' : noSelfDeps sds' := fun sd hsd => hself sd (hp.mem_iff.mpr hsd)
    have hdata' := depsortData_eq_of_checked sds' hclosed' hself'
    have hdperm : (depsortData sds).Perm (depsortData sds') := by
      rw [hdata, hdata']; exact hp.map _
    have hnkeys : (((depsortData sds).map Prod.fst).map
        FQTuple.db_object_identity).Nodup := by
      rw [hdata, List.map_map, List.map_map]
      exact hid
    have hlvls : depsortSortedLevels sds = depsortSortedLevels sds' := by
      unfold depsortSortedLevels depsortLevels
      rw [← hdperm.length_eq]
      exact toposortLevels_map_sortFQ_perm _ _ _ hdperm hnkeys
    unfold depsort
    rw [← hlvls]
    apply List.filterMap_congr
    intro n hn
    obtain ⟨sd, hget, hfq, hmem⟩ := samizdat_map_get_mem_keys (hflatkeys n hn)
    rw [hget]
    have hkeys' : keysNodup sds' := keysNodup_of_idents hid'
    have hg' : samizdat_map_get sds' sd.fq = some sd :=
      samizdat_map_get_of_mem hkeys' (hp.mem_iff.mp hmem)
    rw [← hfq]
    exact hg'.symm
  · intro L hL
    rcases List.mem_map.mp hL with ⟨lvl, hlvl, rfl⟩
    exact sortFQ_sorted lvl

/-- Two independent views, both in the first topological layer. -/
def gA : GNode := { fq := { object_name := some "A" }, entityTypeName := "VIEW" }

/-- Second independent view (identity after `gA`'s). -/
def gB : GNode := { fq := { object_name := some "B" }, entityTypeName := "VIEW" }

/-- C6 counterexample: on two independent views A and B (one topological
layer), `depsort` returns `[B, A]` although A's canonical identity
strictly precedes B's — the within-layer order is descending, not
ascending, because `FQTuple.__lt__` inverts the string comparison. -/
theorem C6_layer_order_counterexample :
    depsort [gA, gB] = [gB, gA] ∧
    pyStrLe gA.fq.db_object_identity gB.fq.db_object_identity = true ∧
    gA.fq.db_object_identity ≠ gB.fq.db_object_identity := by
  decide

/-- A view that `gD` depends on. -/
def gC : GNode := { fq := { object_name := some "C" }, entityTypeName := "VIEW" }

/-- A view depending on `gC`. -/
def gD : GNode :=
  { fq := { object_name := some "D" }, entityTypeName := "VIEW",
    deps_on := [{ object_name := some "C" }] }

/-- C6 witness: the linear-extension property evaluated on the concrete
two-node graph D→C presented in reverse order: the dependency C of the
node at position 1 appears among the names before position 1. -/
theorem C6_depsort_witness :
    ({ object_name := some "C" } : FQTuple) ∈
      ((depsort [gD, gC]).take 1).map GNode.fq :=
  (C6_depsort_properties [gD, gC] (by unfold identsNodup; decide)
    (by unfold depsClosed; decide) (by unfold noSelfDeps; decide)).1 1
    (by decide) { object_name := some "C" } (by decide)

/-! ### Claim C7 — `cmd_refresh --belownodes`

`cmd_refresh` (`runner.py` lines 118–145) selects the declared matviews;
with `--belownodes` it checks the roots against `node_dump`, computes
`subtree_depends`, and keeps the matviews inside that subtree.  It never
queries the database, so no filtering by database presence happens. -/

/-- The nodes whose dependency sets (managed or unmanaged) contain a
given node — the recursion step of `subtree_nodes`'s inner `stn`. -/
def revdep_nodes (sds : List GNode) (root : FQTuple) : List FQTuple :=
  (sds.filter fun sd =>
    root ∈ sd.deps_on ∨ root ∈ sd.deps_on_unmanaged).map GNode.fq

/-- `subtree_nodes`'s recursive `stn`, with explicit fuel (the Python
recursion terminates on the cycle-free sets `sanity_check` accepts; a
fuel of `sds.length` covers every dependency path, since simple paths
visit each samizdat at most once). -/
def subtree_nodes_fuel : Nat → List GNode → FQTuple → List FQTuple
  | 0, _, root => [root]
  | fuel + 1, sds, root =>
    root :: (revdep_nodes sds root).flatMap (subtree_nodes_fuel fuel sds)

/-- `subtree_nodes(samizdats, subtree_root)`: all nodes depending on
`subtree_root`, including the root itself. -/
def subtree_nodes (sds : List GNode) (root : FQTuple) : List FQTuple :=
  subtree_nodes_fuel sds.length sds root

/-- `subtree_depends(samizdats, roots)` (`libgraph.py` lines 56–61):
samizdats directly or indirectly depending on any root —
`reduce(or_, (set(filter(None, (sdmap.get(name) for name in
subtree_nodes(...)))), set())` with list/membership semantics. -/
def subtree_depends (sds : List GNode) (roots : List FQTuple) : List GNode :=
  roots.flatMap fun root =>
    (subtree_nodes sds root).filterMap (samizdat_map_get sds)

/-- All given root nodes are known (`cmd_refresh` raises `ValueError` on
`rootnodes - allnodes` otherwise; the claim presumes this). -/
def rootsKnown (sds : List GNode) (roots : List FQTuple) : Prop :=
  ∀ r ∈ roots, r ∈ node_dump sds

/-- The matviews `cmd_refresh` issues refreshes for: the declared
matviews, and — when `--belownodes` is given — only those inside the
subtree.  No database query is involved in the selection. -/
def cmd_refresh_selected (sds : List GNode) (belownodes : List FQTuple) :
    List GNode :=
  let matviews := sds.filter fun sd => sd.entityTypeName == "MATVIEW"
  if belownodes.isEmpty then matviews
  else matviews.filter fun sd => sd ∈ subtree_depends sds belownodes

/-- The set the claim describes (following the spec's words): declared
matviews in the subtree that are also currently present in the database
(`dbPresent` lists the names of matviews present in the database). -/
def spec_refresh_selected (sds : List GNode) (belownodes : List FQTuple)
    (dbPresent : List FQTuple) : List GNode :=
  (sds.filter fun sd => sd.entityTypeName == "MATVIEW").filter fun sd =>
    sd ∈ subtree_depends sds belownodes ∧ sd.fq ∈ dbPresent

/-- One reverse-dependency edge: `b` is a samizdat whose dependencies
(managed or unmanaged) contain `a`. -/
def RevDepStep (sds : List GNode) (a b : FQTuple) : Prop :=
  ∃ sd ∈ sds, sd.fq = b ∧ (a ∈ sd.deps_on ∨ a ∈ sd.deps_on_unmanaged)

/-- Everything `stn` reaches transitively depends on the root. -/
theorem subtree_nodes_fuel_sound :
    ∀ (fuel : Nat) (sds : List GNode) (root x : FQTuple),
      x ∈ subtree_nodes_fuel fuel sds root →
      Relation.ReflTransGen (RevDepStep sds) root x
  | 0, sds, root, x => fun hx => by
    rcases List.mem_singleton.mp hx with rfl
    exact Relation.ReflTransGen.refl
  | fuel + 1, sds, root, x => fun hx => by
    rcases List.mem_cons.mp hx with rfl | hx'
    · exact Relation.ReflTransGen.refl
    · rcases List.mem_flatMap.mp hx' with ⟨r, hr, hxr⟩
      rcases List.mem_map.mp hr with ⟨sd, hsdfil, rfl⟩
      rcases List.mem_filter.mp hsdfil with ⟨hsd, hdep⟩
      have hstep : RevDepStep sds root sd.fq :=
        ⟨sd, hsd, rfl, by simpa using hdep⟩
      exact Relation.ReflTransGen.head hstep
        (subtree_nodes_fuel_sound fuel sds sd.fq x hxr)

/-- A matview `cmd_refresh` selects with `--belownodes` is a member of
`subtree_depends`. -/
theorem subtree_depends_mem {sds : List GNode} {roots : List FQTuple}
    {sd : GNode} :
    sd ∈ subtree_depends sds roots ↔
      ∃ r ∈ roots, ∃ n ∈ subtree_nodes sds r,
        samizdat_map_get sds n = some sd := by
  simp [subtree_depends, List.mem_flatMap, List.mem_filterMap]

/-- C7 (amended): with `--belownodes` roots given (and presumed known),
`cmd_refresh` refreshes exactly the declared matviews that lie in
`subtree_depends` of the roots — no filtering by database presence
occurs — and every selected matview does transitively depend on one of
the roots. -/
theorem C7_refresh_selection (sds : List GNode) (roots : List FQTuple)
    (hroots : roots ≠ []) :
    (∀ sd, sd ∈ cmd_refresh_selected sds roots ↔
      (sd ∈ sds ∧ sd.entityTypeName = "MATVIEW" ∧
        sd ∈ subtree_depends sds roots)) ∧
    (∀ sd ∈ cmd_refresh_selected sds roots,
      ∃ r ∈ roots, Relation.ReflTransGen (RevDepStep sds) r sd.fq) := by
  have hne : roots.isEmpty = false := by
    cases roots with
    | nil => exact absurd rfl hroots
    | cons a t => rfl
  have hmem : ∀ sd, sd ∈ cmd_refresh_selected sds roots ↔
      (sd ∈ sds ∧ sd.entityTypeName = "MATVIEW" ∧
        sd ∈ subtree_depends sds roots) := by
    intro sd
    unfold cmd_refresh_selected
    rw [hne]
    simp only [Bool.false_eq_true, if_false, List.mem_filter, beq_iff_eq,
      decide_eq_true_eq]
    tauto
  refine ⟨hmem, fun sd hsd => ?_⟩
  have h3 := ((hmem sd).mp hsd).2.2
  rcases subtree_depends_mem.mp h3 with ⟨r, hr, n, hn, hget⟩
  have hfq := (samizdat_map_get_some hget).2
  refine ⟨r, hr, ?_⟩
  rw [← hfq] at hn
  exact subtree_nodes_fuel_sound _ sds r sd.fq hn

/-- A matview over an unmanaged table `t`, declared via
`refresh --belownodes "t"`. -/
def gM : GNode :=
  { fq := { object_name := some "M" }, entityTypeName := "MATVIEW",
    deps_on_unmanaged := [{ object_name := some "t" }] }

/-- C7 counterexample: with root `t` known and the database containing
*no* matviews, `cmd_refresh` still selects `M` for refresh, while the
claimed set (filtered to matviews present in the database) is empty —
the code never filters by database presence. -/
theorem C7_db_presence_not_consulted :
    rootsKnown [gM] [{ object_name := some "t" }] ∧
    cmd_refresh_selected [gM] [{ object_name := some "t" }] = [gM] ∧
    spec_refresh_selected [gM] [{ object_name := some "t" }] [] = [] := by
  refine ⟨?_, by decide, by decide⟩
  unfold rootsKnown
  decide

/-- C7 witness: the amended characterization evaluated on the concrete
one-matview graph: `M` is selected because it is a declared matview
inside the subtree of `t`. -/
theorem C7_refresh_selection_witness :
    gM ∈ cmd_refresh_selected [gM] [{ object_name := some "t" }] :=
  ((C7_refresh_selection [gM] [{ object_name := some "t" }]
    (by decide)).1 gM).mpr ⟨by decide, rfl, by decide⟩

/-! ### Claim C8 — the sidekick counter's padded width

`SamizdatMaterializedView.gen_refresh_tabletriggers` (`samizdat.py` lines
346–377) reads the shared `autorefresher` counter (`and_sidekicks`
increments it by one for each matview with refresh triggers before
generating) and refuses to run once the trigger-name ordinal no longer
fits within `TRIGGER_DEPCOUNTER_PADDED_WIDTH` zero-padded digits —
PostgreSQL fires triggers alphabetically, so the padding is what makes
firing order equal dependency order. -/

/-- `samizdat.py`'s padding width for autogenerated trigger ordinals. -/
def TRIGGER_DEPCOUNTER_PADDED_WIDTH : Nat := 5

/-- Python's `"%.5d" % n`: `n` zero-padded to at least the given width. -/
def pyFmtPadded (w n : Nat) : String :=
  ⟨List.replicate (w - (toString n).length) '0'⟩ ++ toString n

/-- The class-level data of a materialized view that sidekick generation
reads. -/
structure MatviewCls where
  schema : String := "public"
  name : String
  refresh_triggers : List FQTuple := []
  refresh_concurrently : Bool := false
deriving DecidableEq, Repr

/-- The matview's rendered identity. -/
def MatviewCls.db_object_identity (m : MatviewCls) : String :=
  "\"" ++ m.schema ++ "\".\"" ++ m.name ++ "\""

/-- `SamizdatMaterializedView.refresh`:
`REFRESH MATERIALIZED VIEW [CONCURRENTLY] <id>;`. -/
def MatviewCls.refresh (m : MatviewCls) (concurrent_allowed : Bool) : String :=
  "REFRESH MATERIALIZED VIEW " ++
    (if concurrent_allowed && m.refresh_concurrently then "CONCURRENTLY"
     else "") ++ " " ++ m.db_object_identity ++ ";"

/-- An autogenerated trigger class (the fields C8 concerns: its name
embeds the padded dependency ordinal). -/
structure TriggerCls where
  name : String
  on_table : FQTuple
  condition : String
  autorefresher : Bool
  sql_template : String
deriving DecidableEq, Repr

/-- `gen_refresh_triggerfunction`: for a matview with refresh triggers, a
trigger-returning `<name>_refresh` function in the matview's schema whose
body refreshes the view (the Python triple-quoted literal's indentation
is abbreviated here; no claim depends on it). -/
def MatviewCls.gen_refresh_triggerfunction (m : MatviewCls) :
    Option SamizdatCls :=
  if m.refresh_triggers.isEmpty then none
  else some
    { schema := m.schema, name := m.name ++ "_refresh",
      entityTypeName := "FUNCTION",
      function_arguments_signature := some "",
      sql_template := "\n${preamble}\nRETURNS trigger AS $THEBODY$\nBEGIN\n" ++
        m.refresh true ++ "\nRETURN NULL;\nEND;\n$THEBODY$ LANGUAGE plpgsql;\n" }

/-- `gen_refresh_tabletriggers(cls, counter)` with `dep_order` the shared
counter's current value: raises `ValueError` once `dep_order` exceeds
`10 ** TRIGGER_DEPCOUNTER_PADDED_WIDTH - 1`; otherwise, one statement-level
trigger per (sorted) refresh-trigger table, named
`t<padded dep_order>_<ix>_autorefresh`. -/
def MatviewCls.gen_refresh_tabletriggers (m : MatviewCls) (dep_order : Nat) :
    Except String (List TriggerCls) :=
  if dep_order > 10 ^ TRIGGER_DEPCOUNTER_PADDED_WIDTH - 1 then
    .error ("Trigger creation order " ++ toString dep_order ++
      " requires a autonumbering padding width increase (TRIGGER_DEPCOUNTER_PADDED_WIDTH).")
  else
    match m.gen_refresh_triggerfunction with
    | none => .ok []
    | some triggerfn =>
      .ok ((sortFQ m.refresh_triggers).mapIdx fun ix ttable =>
        { name := "t" ++ pyFmtPadded TRIGGER_DEPCOUNTER_PADDED_WIDTH dep_order ++
            "_" ++ toString ix ++ "_autorefresh",
          on_table := ttable,
          condition := "AFTER UPDATE OR INSERT OR DELETE OR TRUNCATE",
          autorefresher := true,
          sql_template := "\n${preamble}\nFOR EACH STATEMENT EXECUTE PROCEDURE " ++
            FQTuple.db_object_identity
              { schema := some triggerfn.schema, object_name := some triggerfn.name,
                args := some (triggerfn.function_arguments_signature.getD "") } ++
            ";\n" })

/-- C8: for a matview with non-empty `refresh_triggers`, sidekick trigger
generation succeeds (producing at least one trigger) whenever the shared
dependency-order counter is at most 99 999, and raises the fatal
padding-width diagnostic whenever the counter reaches 100 000 (or
more). -/
theorem C8_sidekick_counter_width (m : MatviewCls) (dep_order : Nat)
    (hne : m.refresh_triggers ≠ []) :
    (dep_order ≤ 99999 →
      ∃ ts, m.gen_refresh_tabletriggers dep_order = .ok ts ∧ ts ≠ []) ∧
    (100000 ≤ dep_order →
      m.gen_refresh_tabletriggers dep_order = .error
        ("Trigger creation order " ++ toString dep_order ++
          " requires a autonumbering padding width increase (TRIGGER_DEPCOUNTER_PADDED_WIDTH).")) := by
  have hwidth : 10 ^ TRIGGER_DEPCOUNTER_PADDED_WIDTH - 1 = 99999 := by decide
  constructor
  · intro hle
    unfold MatviewCls.gen_refresh_tabletriggers
    rw [hwidth, if_neg (by omega)]
    have hfe : m.refresh_triggers.isEmpty = false := by
      cases h : m.refresh_triggers with
      | nil => exact absurd h hne
      | cons a t => rfl
    unfold MatviewCls.gen_refresh_triggerfunction
    rw [hfe]
    simp only [Bool.false_eq_true, if_false]
    refine ⟨_, rfl, ?_⟩
    intro hnil
    have hlen := congrArg List.length hnil
    rw [List.length_mapIdx] at hlen
    have hperm := (sortFQ_perm m.refresh_triggers).length_eq
    simp only [List.length_nil] at hlen
    rw [hlen] at hperm
    exact hne (List.eq_nil_of_length_eq_zero hperm.symm)
  · intro hge
    unfold MatviewCls.gen_refresh_tabletriggers
    rw [hwidth, if_pos (by omega)]

/-- The spec's matview-auto-refresh scenario: matview `M` with one
refresh-trigger table `t`. -/
def exMV : MatviewCls :=
  { name := "M", refresh_triggers := [{ object_name := some "t" }] }

/-- C8 witness: at counter value 99 999 generation succeeds, at 100 000
it raises the padding-width diagnostic. -/
theorem C8_sidekick_counter_witness :
    (∃ ts, exMV.gen_refresh_tabletriggers 99999 = .ok ts ∧ ts ≠ []) ∧
    exMV.gen_refresh_tabletriggers 100000 = .error
      ("Trigger creation order " ++ toString 100000 ++
        " requires a autonumbering padding width increase (TRIGGER_DEPCOUNTER_PADDED_WIDTH).") :=
  ⟨(C8_sidekick_counter_width exMV 99999 (by decide)).1 (by decide),
   (C8_sidekick_counter_width exMV 100000 (by decide)).2 (by decide)⟩
